import Mathlib

/-!
Verification of the concurrent, range-aware file downloader implemented in
`src/web.rs` of the FirmNetter repository.

The downloader's pure computations (`optimal_thread_count`, `balanced_chunks`,
`extract_filename` and its helpers, `BufferPool::put`) are embedded directly as
Lean functions over `Nat`/`List`.  The effectful orchestration (`download_file`,
`download_chunk`) is embedded as explicit state passing over an environment
record that fixes the outcome of every external interaction (HTTP responses,
filesystem calls, the shared buffer-pool queue, the rayon scheduler's choice
of which chunk workers had started when a failure occurred), together with an
event trace recording the observable side effects in program order.  Machine integers
(`u64`/`usize`) are modelled as `Nat`; the only subtractions performed by the
source are saturating (`saturating_sub`) or guarded, which truncated `Nat`
subtraction models exactly.
-/

/-- `WebError` from src/web.rs (the payloads of `RequestError`, `Utf8Error` and
`Io` carry no information the downloader inspects, so they are elided). -/
inductive WebError where
  | RequestError
  | Utf8Error
  | Io
  | Server (msg : String)
  | ValidationFailed
  | BufferPoolEmpty
  | BufferPoolFull
  | InvalidArgument (msg : String)
deriving DecidableEq

/-- The error value `download_file` returns when the HEAD response has no
parseable Content-Length (the spec calls this error kind `MissingLength`). -/
def missingLength : WebError := .Server "Missing Content-Length"

/-- The terminal error `download_chunk` returns when the retry budget is
exhausted (the spec calls this error kind `ChunkFailed`). -/
def chunkFailedErr : WebError := .Server "Failed to download chunk after multiple attempts"

/-- Rust's `clamp` on unsigned integers; every call site below has `lo ≤ hi`,
so the panicking branch of the Rust implementation is unreachable. -/
def rustClamp (x lo hi : Nat) : Nat :=
  if x < lo then lo else if hi < x then hi else x

/-- `optimal_thread_count` from src/web.rs (lines 266-270); `cpu` stands for
the ambient `rayon::current_num_threads()`. -/
def optimalThreadCount (cpu requested total : Nat) : Nat :=
  let sizeBased := total / (1024 * 1024 * 10)
  rustClamp requested 1 (max (min cpu sizeBased) 1)

/-- `MIN_CHUNK_SIZE` from src/web.rs (line 273). -/
def MIN_CHUNK_SIZE : Nat := 1

/-- The `chunk_size` computed by one iteration of `balanced_chunks`' loop when
`k` iterations remain after this one (so the code's `i == actual_threads - 1`
test becomes `k = 0` and its divisor `actual_threads - i` becomes `k + 1`):
the last iteration takes all remaining bytes, earlier ones take
`avg.max(MIN_CHUNK_SIZE).min(remaining)` where `avg = remaining / (k + 1)`. -/
def chunkSizeAt (k remaining : Nat) : Nat :=
  if k = 0 then remaining
  else min (max (remaining / (k + 1)) MIN_CHUNK_SIZE) remaining

/-- The `for i in 0..actual_threads` loop of `balanced_chunks`: push
`(start, start + chunk_size - 1)` (the subtraction is `saturating_sub`),
advance `start`, decrease `remaining`, and break as soon as `remaining` hits
zero. -/
def chunksGo : Nat → Nat → Nat → List (Nat × Nat)
  | 0, _, _ => []
  | k + 1, start, remaining =>
    if remaining - chunkSizeAt k remaining = 0 then
      [(start, start + (chunkSizeAt k remaining - 1))]
    else
      (start, start + (chunkSizeAt k remaining - 1)) ::
        chunksGo k (start + chunkSizeAt k remaining) (remaining - chunkSizeAt k remaining)

/-- `balanced_chunks` from src/web.rs (lines 274-304); `cpu` stands for
`rayon::current_num_threads()`.  The first argument of `chunksGo` is the
code's `actual_threads = requested_threads.clamp(1, max_reasonable.max(1))
.min(cpu)` with `max_reasonable = total / MIN_CHUNK_SIZE.max(1)`. -/
def balancedChunks (cpu total requestedThreads : Nat) : List (Nat × Nat) :=
  chunksGo (min (rustClamp requestedThreads 1 (max (total / max MIN_CHUNK_SIZE 1) 1)) cpu)
    0 total

/-- `contiguousFrom s cs` checks that the inclusive ranges in `cs` start at
`s`, are each non-empty (`start ≤ end`), and follow one another with no gap and
no overlap. -/
def contiguousFrom : Nat → List (Nat × Nat) → Bool
  | _, [] => true
  | s, (a, b) :: rest => (a == s) && decide (a ≤ b) && contiguousFrom (b + 1) rest

/-- Sum of the inclusive lengths `end - start + 1` of a chunk plan. -/
def sumLens (cs : List (Nat × Nat)) : Nat := (cs.map (fun p => p.2 - p.1 + 1)).sum

/-- The `end` of the last range of a plan, if any. -/
def lastEnd : List (Nat × Nat) → Option Nat
  | [] => none
  | [(_, b)] => some b
  | _ :: rest => lastEnd rest

/-- `BufferPool` from src/web.rs (lines 236-263): an `ArrayQueue` of capacity
`poolSize` holding idle buffers of length `bufferSize`. -/
structure BufferPool where
  poolSize : Nat
  bufferSize : Nat
deriving DecidableEq

/-- The observable state of the shared `ArrayQueue`: how many idle buffers it
currently holds (their contents never influence control flow). -/
structure PoolState where
  occupancy : Nat
deriving DecidableEq

/-- `BufferPool::get` (lines 250-256): pop an idle buffer if one is queued,
otherwise allocate a fresh zero-filled buffer; both branches return `Ok`. -/
def BufferPool.get (p : BufferPool) (st : PoolState) : Except WebError PoolState :=
  if 1 ≤ st.occupancy then .ok ⟨st.occupancy - 1⟩ else .ok st

/-- `BufferPool::put` (lines 258-262): clear and resize the buffer, then
`ArrayQueue::push` it, which fails exactly when the queue is at capacity; that
failure is mapped to `Err(WebError::BufferPoolFull)` and returned. -/
def BufferPool.put (p : BufferPool) (st : PoolState) : Except WebError PoolState :=
  if st.occupancy < p.poolSize then .ok ⟨st.occupancy + 1⟩
  else .error .BufferPoolFull

/-- The environment of one iteration of `download_chunk`'s retry loop.
`sendOk` is the outcome of `client.get(url)...send()`; `reads` lists the
successive results of `response.read(&mut buffer)` (`none` a reader error,
`some n` a successful read of `n` bytes, `n = 0` meaning end of stream, with
the stream at end of stream once the list is exhausted); `putOk` is the
outcome of the `ArrayQueue::push` inside `buffer_pool.put` — an oracle,
because the queue is shared with concurrently running sibling workers. -/
structure AttemptEnv where
  sendOk : Bool
  reads : List (Option Nat)
  putOk : Bool
deriving DecidableEq

/-- Placeholder attempt used only as the default of `List.getD`. -/
def dfltAttempt : AttemptEnv := ⟨false, [], false⟩

/-- The read/copy loop of `download_chunk` (lines 487-494) over a slice of
length `sliceLen`.  Result `none` models the Rust panic taken when
`slice[offset..offset + read]` is out of bounds; `some none` models the loop
aborting with a reader error (propagated by `?`); `some (some offset)` models
the loop breaking at end of stream having copied `offset` bytes. -/
def runReads (sliceLen : Nat) : Nat → List (Option Nat) → Option (Option Nat)
  | offset, [] => some (some offset)
  | _, none :: _ => some none
  | offset, some n :: rest =>
    if n = 0 then some (some offset)
    else if offset + n ≤ sliceLen then runReads sliceLen (offset + n) rest
    else none

/-- Total number of bytes a response delivers before its first end-of-stream
or reader error; this is what "the ranged response delivers N bytes" means. -/
def readsTotal : List (Option Nat) → Nat
  | [] => 0
  | none :: _ => 0
  | some n :: rest => if n = 0 then 0 else n + readsTotal rest

/-- Outcome of a single iteration of `download_chunk`'s retry loop. -/
inductive AttemptRes where
  | panic
  | err (e : WebError)
  | done (offset : Nat)
deriving DecidableEq

/-- One iteration of `download_chunk`'s `for attempt in 0..MAX_RETRIES` loop
(lines 478-505): send the ranged GET (a send error returns immediately via
`?`), acquire a buffer (never fails), run the read/copy loop, then release the
buffer (a pool-full error returns immediately via `?`); `done offset` means
the iteration reached the completion check with `offset` bytes copied. -/
def attemptRun (span : Nat) (a : AttemptEnv) : AttemptRes :=
  if a.sendOk then
    match runReads span 0 a.reads with
    | none => .panic
    | some none => .err .Io
    | some (some off) => if a.putOk then .done off else .err .BufferPoolFull
  else .err .RequestError

/-- Overall outcome of `download_chunk` for one chunk. -/
inductive ChunkOut where
  | panic
  | fail (e : WebError)
  | ok
deriving DecidableEq

/-- The retry loop of `download_chunk`: run the listed attempts in order,
counting how many were started; an attempt whose copied byte count equals the
expected span succeeds, an attempt that only fell short is retried, any other
outcome returns immediately; running out of attempts yields the terminal
`Server("Failed to download chunk after multiple attempts")` error. -/
def runAttempts (span : Nat) : List AttemptEnv → Nat → Nat × ChunkOut
  | [], used => (used, .fail chunkFailedErr)
  | a :: rest, used =>
    match attemptRun span a with
    | .panic => (used + 1, .panic)
    | .err e => (used + 1, .fail e)
    | .done off => if span = off then (used + 1, .ok) else runAttempts span rest (used + 1)

/-- `MAX_RETRIES` from src/web.rs (line 477). -/
def MAX_RETRIES : Nat := 3

/-- `download_chunk` from src/web.rs (lines 469-510) for the inclusive byte
range `(start, endB)`, with the per-attempt environment `env`; returns the
number of attempts started and the outcome. -/
def downloadChunk (start endB : Nat) (env : Nat → AttemptEnv) : Nat × ChunkOut :=
  runAttempts (endB - start + 1) [env 0, env 1, env 2] 0

/-- Whether the attempt ran to `download_chunk`'s completion check but had
copied the wrong number of bytes (a truncated response — the one case the
source retries). -/
def shortAttempt (span : Nat) (a : AttemptEnv) : Bool :=
  match attemptRun span a with
  | .done off => off != span
  | _ => false

/-- The `split_at_mut` loop of `download_file` (lines 435-442): cut the memory
mapping, of which `r` bytes remain starting at absolute offset `off`, at the
chunk boundaries in plan order.  Each produced slice is `(offset, length)`;
`none` models the panic `split_at_mut` raises when a chunk size exceeds the
remaining mapping. -/
def splitSlices : Nat → Nat → List (Nat × Nat) → Option (List (Nat × Nat))
  | _, _, [] => some []
  | off, r, (s, e) :: rest =>
    let size := e - s + 1
    if size ≤ r then
      (splitSlices (off + size) (r - size) rest).map (fun l => (off, size) :: l)
    else none

/-- The two headers `download_file` reads from the HEAD response:
`Accept-Ranges: bytes` (exact match) and the parsed `Content-Length`. -/
structure HeadResp where
  acceptRangesBytes : Bool
  contentLength : Option Nat
deriving DecidableEq

/-- Which path an observable filesystem write targets. -/
inductive PathTag where
  | temp
  | dest
deriving DecidableEq

/-- Observable side effects of one `download_file` run, in program order:
`write p` is any byte-writing filesystem operation on path `p` (creating the
temp file, `set_len`, the single-stream `io::copy`); `bodyTransfer` marks the
single-stream GET starting to deliver body bytes; `chunkStart i` marks chunk
`i`'s worker issuing its first ranged GET; `chunkDone i ok` its termination;
`validate ok` the independent size check of the temp file; `renamed` the
successful atomic rename of the temp file onto the destination. -/
inductive Ev where
  | write (p : PathTag)
  | bodyTransfer
  | chunkStart (i : Nat)
  | chunkDone (i : Nat) (ok : Bool)
  | validate (ok : Bool)
  | renamed
deriving DecidableEq

/-- Result of the parallel chunk phase. -/
inductive RunRes where
  | ok
  | err (e : WebError)
  | panicked
deriving DecidableEq

/-- Whether chunk `i`'s worker, if run, terminates with a failure or a
panic rather than `Ok`. -/
def chunkBad (cenv : Nat → Nat → AttemptEnv) (i : Nat) (c : Nat × Nat) : Bool :=
  match (downloadChunk c.1 c.2 (cenv i)).2 with
  | .ok => false
  | _ => true

/-- Whether some chunk the scheduling oracle `started` marks as started runs
to a failure or panic — the condition under which rayon's best-effort
cancellation may leave other chunks unstarted. -/
def anyStartedBad (cenv : Nat → Nat → AttemptEnv) (started : Nat → Bool) :
    Nat → List (Nat × Nat) → Bool
  | _, [] => false
  | i, c :: rest =>
    (started i && chunkBad cenv i c) || anyStartedBad cenv started (i + 1) rest

/-- Combine one executed worker's outcome with the result of its siblings: a
panic anywhere propagates as a panic of the whole `try_for_each` call;
otherwise any failure makes the call fail. Which failing chunk's error the
call returns is scheduler-dependent; this serialization reports the failure
with the smallest index. -/
def mergeOut : ChunkOut → RunRes → RunRes
  | _, .panicked => .panicked
  | .panic, _ => .panicked
  | .fail e, _ => .err e
  | .ok, r => r

/-- One execution of the workers under the oracle `started`: when `runAll` is
set every chunk runs; otherwise chunks the oracle did not start are skipped
and produce no events.  The trace lists the executed workers' events in index
order — one serialization of the concurrent run, implying no ordering between
distinct workers. -/
def runChunksGo (cenv : Nat → Nat → AttemptEnv) (started : Nat → Bool) (runAll : Bool) :
    Nat → List (Nat × Nat) → RunRes × List Ev
  | _, [] => (.ok, [])
  | i, (s, e) :: rest =>
    if started i = false ∧ runAll = false then
      runChunksGo cenv started runAll (i + 1) rest
    else
      match (downloadChunk s e (cenv i)).2 with
      | .ok =>
        (mergeOut .ok (runChunksGo cenv started runAll (i + 1) rest).1,
          .chunkStart i :: .chunkDone i true :: (runChunksGo cenv started runAll (i + 1) rest).2)
      | .fail er =>
        (mergeOut (.fail er) (runChunksGo cenv started runAll (i + 1) rest).1,
          .chunkStart i :: .chunkDone i false :: (runChunksGo cenv started runAll (i + 1) rest).2)
      | .panic =>
        (mergeOut .panic (runChunksGo cenv started runAll (i + 1) rest).1,
          .chunkStart i :: (runChunksGo cenv started runAll (i + 1) rest).2)

/-- The `chunks.par_iter().zip(slices).try_for_each(...)` call of
`download_file` (lines 444-448), embedded by rayon's `try_for_each` contract:
the call returns `Ok` only when every chunk ran and succeeded; once some
started chunk fails or panics, cancellation is best-effort, so whether a
given sibling was already started is scheduler-dependent — the oracle
`started` picks one of the permitted executions, and chunks may be skipped
only in that case (when no started chunk goes bad, every chunk runs); the
call returns only after every started worker has terminated, and a worker
panic propagates as a panic of the whole call. -/
def runChunks (cenv : Nat → Nat → AttemptEnv) (started : Nat → Bool)
    (chunks : List (Nat × Nat)) : RunRes × List Ev :=
  runChunksGo cenv started (!(anyStartedBad cenv started 0 chunks)) 0 chunks

/-- Environment fixing the outcome of every external interaction of one
`download_file` run.  `cpu` is `rayon::current_num_threads()`; `tempEqDest`
records whether the destination path's extension is already `download`, in
which case `original_path.with_extension("download")` (web.rs:384) returns the
destination itself and the temp path IS the destination path; the Bool fields
are the success of, in program order, `create_dir_all`, opening the temp file,
`set_len`, `MmapMut::map_mut`, the single-stream GET send, the single-stream
open-for-write plus `io::copy`, `flush`, and the `metadata` call inside
`validate_file`; `headResp` is the HEAD response (`none` a send error);
`chunkEnv i` is chunk `i`'s per-attempt environment; `started i` is the rayon
scheduler's choice of whether chunk `i`'s worker had started before a failing
sibling triggered best-effort cancellation (irrelevant when no chunk fails);
`actualLen` is the length `metadata` reports for the temp file; `renameOk` is
the success of `rename`. -/
structure Env where
  cpu : Nat
  tempEqDest : Bool
  createDirOk : Bool
  headResp : Option HeadResp
  openOk : Bool
  setLenOk : Bool
  mmapOk : Bool
  ssGetOk : Bool
  ssCopyOk : Bool
  chunkEnv : Nat → Nat → AttemptEnv
  started : Nat → Bool
  flushOk : Bool
  metaOk : Bool
  actualLen : Nat
  renameOk : Bool

/-- The path every pre-rename write of `download_file` targets: the temp path
`original_path.with_extension("download")` — which is a separate `.download`
file in the usual case, but the destination path itself when the destination's
extension is already `download`. -/
def tempTag (env : Env) : PathTag :=
  if env.tempEqDest then PathTag.dest else PathTag.temp

/-- Result of a `download_file` run.  The `save_path`/`file_name` strings of
`DownloadResult` are pure renderings of the input path and are elided; `ok`
carries the `threads_used` field.  `panicked` models a worker panic
propagating out of the rayon call. -/
inductive DlOut where
  | ok (threadsUsed : Nat)
  | err (e : WebError)
  | panicked
deriving DecidableEq

/-- The parallel tail of `download_file` (lines 433-465): split the mapping at
the plan boundaries (`splitSlices`; `none` is the `split_at_mut` panic), run
the chunk workers, then flush the mapping, validate the temp file's size
independently and rename it onto the destination; `threadsUsed` is the value
reported in `DownloadResult.threads_used`. -/
def parallelTail (env : Env) (totalSize threadsUsed : Nat) (chunks : List (Nat × Nat)) :
    DlOut × List Ev :=
  match splitSlices 0 totalSize chunks with
  | none => (.panicked, [.write (tempTag env), .write (tempTag env)])
  | some _ =>
    match runChunks env.chunkEnv env.started chunks with
    | (.panicked, ctr) => (.panicked, [.write (tempTag env), .write (tempTag env)] ++ ctr)
    | (.err e, ctr) => (.err e, [.write (tempTag env), .write (tempTag env)] ++ ctr)
    | (.ok, ctr) =>
      if env.flushOk = false then
        (.err .Io, [.write (tempTag env), .write (tempTag env)] ++ ctr)
      else if env.metaOk = false then
        (.err .Io, [.write (tempTag env), .write (tempTag env)] ++ ctr)
      else if env.actualLen ≠ totalSize then
        (.err .ValidationFailed,
          [.write (tempTag env), .write (tempTag env)] ++ ctr ++ [.validate false])
      else if env.renameOk = false then
        (.err .Io, [.write (tempTag env), .write (tempTag env)] ++ ctr ++ [.validate true])
      else
        (.ok threadsUsed,
          [.write (tempTag env), .write (tempTag env)] ++ ctr ++ [.validate true, .renamed])

/-- `download_file` from src/web.rs (lines 366-466): derive the destination
(pure, elided), create parent directories, probe via HEAD, abort with
`missingLength` when no Content-Length parses, create and size the temp file,
map it, then either stream a single GET into the temp file or plan chunks and
run the parallel tail; in every successful path the temp file is validated
against `totalSize` and only then renamed onto the destination. -/
def downloadFile (requestedThreads : Nat) (mandatoryUse : Bool) (env : Env) : DlOut × List Ev :=
  if env.createDirOk = false then (.err .Io, [])
  else
    match env.headResp with
    | none => (.err .RequestError, [])
    | some h =>
      match h.contentLength with
      | none => (.err missingLength, [])
      | some totalSize =>
        if env.openOk = false then (.err .Io, [])
        else if env.setLenOk = false then (.err .Io, [.write (tempTag env)])
        else if env.mmapOk = false then
          (.err .Io, [.write (tempTag env), .write (tempTag env)])
        else if h.acceptRangesBytes = false then
          if env.ssGetOk = false then
            (.err .RequestError, [.write (tempTag env), .write (tempTag env)])
          else if env.ssCopyOk = false then
            (.err .Io, [.write (tempTag env), .write (tempTag env), .bodyTransfer])
          else if env.metaOk = false then
            (.err .Io,
              [.write (tempTag env), .write (tempTag env), .bodyTransfer,
                .write (tempTag env)])
          else if env.actualLen ≠ totalSize then
            (.err .ValidationFailed,
              [.write (tempTag env), .write (tempTag env), .bodyTransfer,
                .write (tempTag env), .validate false])
          else if env.renameOk = false then
            (.err .Io,
              [.write (tempTag env), .write (tempTag env), .bodyTransfer,
                .write (tempTag env), .validate true])
          else
            (.ok 1,
              [.write (tempTag env), .write (tempTag env), .bodyTransfer,
                .write (tempTag env), .validate true, .renamed])
        else
          parallelTail env totalSize
            (if mandatoryUse then requestedThreads
             else optimalThreadCount env.cpu requestedThreads totalSize)
            (balancedChunks env.cpu totalSize
              (if mandatoryUse then requestedThreads
               else optimalThreadCount env.cpu requestedThreads totalSize))

/-- Rust's `char::is_control`: the Unicode Cc category, i.e. U+0000..U+001F
and U+007F..U+009F. -/
def rustIsControl (c : Char) : Bool :=
  decide (c.toNat < 32) || (decide (127 ≤ c.toNat) && decide (c.toNat ≤ 159))

/-- The character class `clean_filename` replaces with an underscore:
control characters and the literal characters slash, backslash, colon, star. -/
def forbiddenChar (c : Char) : Bool :=
  rustIsControl c || c == '/' || c == '\\' || c == ':' || c == '*'

/-- The part of the `url` crate's `Url` that `extract_filename` reads: the
path and `host_str()`.  `Url::parse` and `percent_decode_str(..).decode_utf8()`
are third-party library calls, so they enter the embedding as the abstract
parameters `parse` and `decode` of `extractFilename` below. -/
structure UrlModel where
  path : String
  host : Option String
deriving DecidableEq

/-- `clean_filename` from src/web.rs (lines 342-348): percent-decode the raw
segment (an undecodable segment becomes the empty string, as in
`unwrap_or_default`), then replace every forbidden character with `_`. -/
def cleanFilename (decode : String → Option String) (raw : String) : String :=
  String.mk (((decode raw).getD "").toList.map (fun c => if forbiddenChar c then '_' else c))

/-- `generate_default_name` from src/web.rs (lines 351-354). -/
def generateDefaultName (u : UrlModel) : String := (u.host.getD "unknown") ++ ".bin"

/-- `add_default_extension` from src/web.rs (lines 357-363). -/
def addDefaultExtension (name : String) : String :=
  if name.toList.contains '.' then name else name ++ ".bin"

/-- Rust's `str::split(sep)` over the characters of a string: the (possibly
empty) stretches between occurrences of `sep`, e.g. splitting `/a/b.txt` at
`/` yields `["", "a", "b.txt"]`. -/
def splitSeg (sep : Char) : List Char → List (List Char)
  | [] => [[]]
  | c :: rest =>
    if c = sep then [] :: splitSeg sep rest
    else
      match splitSeg sep rest with
      | [] => [[c]]
      | s :: ss => (c :: s) :: ss

/-- `extract_filename` from src/web.rs (lines 317-339), parameterised by the
`url` crate's parser and the percent-decoder (see `UrlModel`). -/
def extractFilename (parse : String → Option UrlModel) (decode : String → Option String)
    (url : String) : String :=
  match parse url with
  | none => "invalid_url.bin"
  | some u =>
    if u.path = "" ∨ u.path = "/" then generateDefaultName u
    else
      match (splitSeg '/' u.path.toList).reverse.find? (fun s => s != []) with
      | some seg => addDefaultExtension (cleanFilename decode (String.mk seg))
      | none => addDefaultExtension (generateDefaultName u)

/-- A filename usable as the claim demands: non-empty, carrying a dot-separated
extension, and free of control characters and of `/ \ : *`. -/
def goodName (s : String) : Prop :=
  s ≠ "" ∧ '.' ∈ s.toList ∧ ∀ c ∈ s.toList, forbiddenChar c = false

/-- An attempt whose response truncates immediately (end of stream after zero
bytes) with a well-behaved pool release. -/
def truncAttempt : AttemptEnv := ⟨true, [some 0], true⟩

/-- An attempt that delivers exactly one byte and releases its buffer. -/
def oneByteAttempt : AttemptEnv := ⟨true, [some 1], true⟩

/-- Environment for a fully successful single-stream run (server without range
support, five bytes long, all filesystem calls succeeding). -/
def envSingleOk : Env :=
  { cpu := 1, tempEqDest := false, createDirOk := true, headResp := some ⟨false, some 5⟩,
    openOk := true, setLenOk := true, mmapOk := true, ssGetOk := true, ssCopyOk := true,
    chunkEnv := fun _ _ => oneByteAttempt, started := fun _ => true, flushOk := true,
    metaOk := true, actualLen := 5, renameOk := true }

/-- Environment for a single-stream run whose destination path already ends in
the `.download` extension (e.g. `save_path = "out.download"`), so
`with_extension("download")` leaves it unchanged and the temp path is the
destination path; the server sends more bytes than announced, so the size
validation fails after the body was already written. -/
def envTempCollision : Env :=
  { cpu := 1, tempEqDest := true, createDirOk := true, headResp := some ⟨false, some 5⟩,
    openOk := true, setLenOk := true, mmapOk := true, ssGetOk := true, ssCopyOk := true,
    chunkEnv := fun _ _ => oneByteAttempt, started := fun _ => true, flushOk := true,
    metaOk := true, actualLen := 6, renameOk := true }

/-- Environment whose HEAD response parses no Content-Length. -/
def envNoLength : Env :=
  { cpu := 4, tempEqDest := false, createDirOk := true, headResp := some ⟨true, none⟩,
    openOk := true, setLenOk := true, mmapOk := true, ssGetOk := true, ssCopyOk := true,
    chunkEnv := fun _ _ => oneByteAttempt, started := fun _ => true, flushOk := true,
    metaOk := true, actualLen := 0, renameOk := true }

/-- Environment for a two-byte, two-chunk parallel run in which chunk 0's
server truncates every attempt while chunk 1 would behave perfectly; the
scheduler had started only chunk 0's worker when its retry budget was
exhausted, so the best-effort cancellation leaves chunk 1 unstarted — one of
the executions rayon's `try_for_each` permits. -/
def envChunk0Fails : Env :=
  { cpu := 2, tempEqDest := false, createDirOk := true, headResp := some ⟨true, some 2⟩,
    openOk := true, setLenOk := true, mmapOk := true, ssGetOk := true, ssCopyOk := true,
    chunkEnv := fun i _ => if i = 0 then truncAttempt else oneByteAttempt,
    started := fun i => i == 0, flushOk := true, metaOk := true, actualLen := 2,
    renameOk := true }

/-- Per-attempt environment in which the first attempt's reader fails with an
I/O error (a dropped connection) after the ranged GET succeeded. -/
def envReadError : Nat → AttemptEnv := fun _ => ⟨true, [none], true⟩

/-- Per-attempt environment for the ten-byte chunk `(0, 9)`: the first two
responses truncate after three bytes, the third delivers all ten. -/
def envThirdTimeLucky : Nat → AttemptEnv :=
  fun i => if i < 2 then ⟨true, [some 3], true⟩ else ⟨true, [some 10], true⟩

/-- Per-attempt environment for the one-byte chunk `(0, 0)`: the response
delivers the full byte but the shared pool queue is full when the worker
releases its buffer (a sibling released first), so `put` fails. -/
def envPoolFull : Nat → AttemptEnv := fun _ => ⟨true, [some 1], false⟩

/-- Parser used by the C7 witness: the fixed parse of `http://h/a/b.txt`. -/
def parseFixed : String → Option UrlModel := fun _ => some ⟨"/a/b.txt", some "h"⟩

/-- Modelled from the `url` crate's documented behaviour at the input
`http://[::1]/` (the crate itself is an external dependency, not repository
code): `Url::parse("http://[::1]/")` succeeds with `path() = "/"` and
`host_str() = "[::1]"` — brackets and colons included for an IPv6 host. -/
def parseV6 : String → Option UrlModel := fun _ => some ⟨"/", some "[::1]"⟩

theorem rustClamp_pos (x hi : Nat) (h : 1 ≤ hi) : 1 ≤ rustClamp x 1 hi := by
  unfold rustClamp; split_ifs <;> omega

theorem rustClamp_le_self (x hi : Nat) (h : 1 ≤ x) : rustClamp x 1 hi ≤ x := by
  unfold rustClamp; split_ifs <;> omega

theorem rustClamp_le_hi (x hi : Nat) (h : 1 ≤ hi) : rustClamp x 1 hi ≤ hi := by
  unfold rustClamp; split_ifs <;> omega

theorem rustClamp_mono_hi (x h1 h2 : Nat) (hh : h1 ≤ h2) :
    rustClamp x 1 h1 ≤ rustClamp x 1 h2 := by
  unfold rustClamp; split_ifs <;> omega

theorem lastEnd_cons {x : Nat × Nat} {rest : List (Nat × Nat)} (h : rest ≠ []) :
    lastEnd (x :: rest) = lastEnd rest := by
  cases rest with
  | nil => exact absurd rfl h
  | cons y t => rfl

theorem chunkSizeAt_pos (k remaining : Nat) (hr : 1 ≤ remaining) :
    1 ≤ chunkSizeAt k remaining := by
  unfold chunkSizeAt
  split_ifs
  · exact hr
  · refine le_min ?_ hr
    calc 1 ≤ MIN_CHUNK_SIZE := by simp [MIN_CHUNK_SIZE]
    _ ≤ max (remaining / (k + 1)) MIN_CHUNK_SIZE := Nat.le_max_right _ _

theorem chunkSizeAt_le (k remaining : Nat) : chunkSizeAt k remaining ≤ remaining := by
  unfold chunkSizeAt
  split_ifs
  · exact le_refl _
  · exact min_le_right _ _

theorem chunksGo_spec (k : Nat) :
    ∀ start remaining, 1 ≤ k → 1 ≤ remaining →
      contiguousFrom start (chunksGo k start remaining) = true ∧
      sumLens (chunksGo k start remaining) = remaining ∧
      lastEnd (chunksGo k start remaining) = some (start + remaining - 1) ∧
      (chunksGo k start remaining).length ≤ k ∧
      (chunksGo k start remaining).length ≤ remaining ∧
      chunksGo k start remaining ≠ [] := by
  induction k with
  | zero => intro _ _ hk _; exact absurd hk (by omega)
  | succ k ih =>
    intro start remaining _ hr
    have hcs1 : 1 ≤ chunkSizeAt k remaining := chunkSizeAt_pos k remaining hr
    have hcs2 : chunkSizeAt k remaining ≤ remaining := chunkSizeAt_le k remaining
    simp only [chunksGo]
    by_cases hz : remaining - chunkSizeAt k remaining = 0
    · have hce : chunkSizeAt k remaining = remaining := by omega
      rw [if_pos hz]
      refine ⟨?_, ?_, ?_, ?_, ?_, ?_⟩
      · simp only [contiguousFrom, Bool.and_eq_true, beq_iff_eq, decide_eq_true_eq, and_true]
        exact ⟨trivial, by omega⟩
      · simp only [sumLens, List.map_cons, List.map_nil, List.sum_cons, List.sum_nil]
        omega
      · simp only [lastEnd]; congr 1; omega
      · simp only [List.length_cons, List.length_nil]; omega
      · simp only [List.length_cons, List.length_nil]; omega
      · exact List.cons_ne_nil _ _
    · have hr2 : 1 ≤ remaining - chunkSizeAt k remaining := by omega
      have hkpos : 1 ≤ k := by
        by_contra hk
        have : k = 0 := by omega
        subst this
        simp [chunkSizeAt] at hz
      obtain ⟨ih1, ih2, ih3, ih4, ih5, ih6⟩ :=
        ih (start + chunkSizeAt k remaining) (remaining - chunkSizeAt k remaining) hkpos hr2
      rw [if_neg hz]
      refine ⟨?_, ?_, ?_, ?_, ?_, ?_⟩
      · simp only [contiguousFrom, Bool.and_eq_true, beq_iff_eq, decide_eq_true_eq]
        refine ⟨⟨trivial, by omega⟩, ?_⟩
        have he : start + (chunkSizeAt k remaining - 1) + 1 = start + chunkSizeAt k remaining := by
          omega
        rw [he]; exact ih1
      · simp only [sumLens, List.map_cons, List.sum_cons] at ih2 ⊢
        omega
      · rw [lastEnd_cons ih6, ih3]; congr 1; omega
      · simp only [List.length_cons]; omega
      · simp only [List.length_cons]; omega
      · exact List.cons_ne_nil _ _

theorem balancedChunks_spec (cpu total threads : Nat)
    (hc : 1 ≤ cpu) (ht : 1 ≤ total) (hth : 1 ≤ threads) :
    contiguousFrom 0 (balancedChunks cpu total threads) = true ∧
    sumLens (balancedChunks cpu total threads) = total ∧
    lastEnd (balancedChunks cpu total threads) = some (total - 1) ∧
    (balancedChunks cpu total threads).length ≤ min threads total ∧
    balancedChunks cpu total threads ≠ [] := by
  have hmx : max (total / max MIN_CHUNK_SIZE 1) 1 = total := by
    simp [MIN_CHUNK_SIZE]; omega
  unfold balancedChunks
  rw [hmx]
  have hn1 : 1 ≤ min (rustClamp threads 1 total) cpu :=
    le_min (rustClamp_pos _ _ ht) hc
  have hnth : min (rustClamp threads 1 total) cpu ≤ threads :=
    le_trans (min_le_left _ _) (rustClamp_le_self _ _ hth)
  have hntot : min (rustClamp threads 1 total) cpu ≤ total :=
    le_trans (min_le_left _ _) (rustClamp_le_hi _ _ ht)
  obtain ⟨h1, h2, h3, h4, h5, h6⟩ :=
    chunksGo_spec (min (rustClamp threads 1 total) cpu) 0 total hn1 ht
  refine ⟨h1, h2, by simpa using h3, ?_, h6⟩
  exact le_min (le_trans h4 hnth) h5

theorem contiguous_starts (cs : List (Nat × Nat)) :
    ∀ s, contiguousFrom s cs = true → ∀ p ∈ cs, s ≤ p.1 ∧ p.1 ≤ p.2 := by
  induction cs with
  | nil => intro s _ p hp; cases hp
  | cons a t ih =>
    rcases a with ⟨x, y⟩
    intro s hc p hp
    simp only [contiguousFrom, Bool.and_eq_true, beq_iff_eq, decide_eq_true_eq] at hc
    obtain ⟨⟨hx, hxy⟩, hrest⟩ := hc
    rcases List.mem_cons.mp hp with rfl | hp2
    · exact ⟨by omega, hxy⟩
    · have := ih (y + 1) hrest p hp2
      exact ⟨by omega, this.2⟩

theorem contiguous_pairwise_ranges (cs : List (Nat × Nat)) :
    ∀ s, contiguousFrom s cs = true →
      List.Pairwise (fun x y : Nat × Nat => x.2 < y.1) cs := by
  induction cs with
  | nil => intro _ _; exact List.Pairwise.nil
  | cons a t ih =>
    rcases a with ⟨x, y⟩
    intro s hc
    simp only [contiguousFrom, Bool.and_eq_true, beq_iff_eq, decide_eq_true_eq] at hc
    obtain ⟨⟨hx, hxy⟩, hrest⟩ := hc
    refine List.Pairwise.cons ?_ (ih (y + 1) hrest)
    intro q hq
    have := (contiguous_starts t (y + 1) hrest q hq).1
    show y < q.1
    omega

theorem contiguous_pairwise_slices (cs : List (Nat × Nat)) :
    ∀ s, contiguousFrom s cs = true →
      List.Pairwise (fun x y : Nat × Nat => x.1 + x.2 ≤ y.1)
        (cs.map (fun p => (p.1, p.2 - p.1 + 1))) := by
  induction cs with
  | nil => intro _ _; exact List.Pairwise.nil
  | cons a t ih =>
    rcases a with ⟨x, y⟩
    intro s hc
    simp only [contiguousFrom, Bool.and_eq_true, beq_iff_eq, decide_eq_true_eq] at hc
    obtain ⟨⟨hx, hxy⟩, hrest⟩ := hc
    simp only [List.map_cons]
    refine List.Pairwise.cons ?_ (ih (y + 1) hrest)
    intro q hq
    rcases List.mem_map.mp hq with ⟨p, hp, rfl⟩
    have := (contiguous_starts t (y + 1) hrest p hp).1
    show x + (y - x + 1) ≤ p.1
    omega

theorem splitSlices_contiguous (cs : List (Nat × Nat)) :
    ∀ s, contiguousFrom s cs = true →
      splitSlices s (sumLens cs) cs = some (cs.map (fun p => (p.1, p.2 - p.1 + 1))) := by
  induction cs with
  | nil => intro s _; simp [splitSlices, sumLens]
  | cons a t ih =>
    rcases a with ⟨x, y⟩
    intro s hc
    simp only [contiguousFrom, Bool.and_eq_true, beq_iff_eq, decide_eq_true_eq] at hc
    obtain ⟨⟨hx, hxy⟩, hrest⟩ := hc
    subst hx
    have hsum : sumLens ((x, y) :: t) = (y - x + 1) + sumLens t := by
      simp [sumLens]
    rw [hsum]
    simp only [splitSlices]
    rw [if_pos (Nat.le_add_right _ _)]
    have hoff : x + (y - x + 1) = y + 1 := by omega
    have hrem : (y - x + 1) + sumLens t - (y - x + 1) = sumLens t := by omega
    rw [hoff, hrem, ih (y + 1) hrest]
    simp

theorem runReads_no_panic (span : Nat) (reads : List (Option Nat)) :
    ∀ offset, offset + readsTotal reads ≤ span → runReads span offset reads ≠ none := by
  induction reads with
  | nil => intro o _ h; simp [runReads] at h
  | cons hd tl ih =>
    intro o ho
    rcases hd with _ | n
    · simp [runReads]
    · simp only [readsTotal] at ho
      by_cases hn : n = 0
      · simp [runReads, hn]
      · rw [if_neg hn] at ho
        have hb : o + n ≤ span := by omega
        simp only [runReads, if_neg hn, if_pos hb]
        exact ih (o + n) (by omega)

theorem attemptRun_no_panic (span : Nat) (a : AttemptEnv) (h : readsTotal a.reads ≤ span) :
    attemptRun span a ≠ AttemptRes.panic := by
  unfold attemptRun
  by_cases hs : a.sendOk = true
  · rw [if_pos hs]
    have hnp := runReads_no_panic span a.reads 0 (by omega)
    rcases hr : runReads span 0 a.reads with _ | o
    · exact absurd hr hnp
    · rcases o with _ | off
      · simp
      · by_cases hp : a.putOk = true <;> simp [hp]
  · rw [if_neg hs]; simp

theorem runAttempts_no_panic (span : Nat) (l : List AttemptEnv)
    (h : ∀ a ∈ l, attemptRun span a ≠ AttemptRes.panic) :
    ∀ used, (runAttempts span l used).2 ≠ ChunkOut.panic := by
  induction l with
  | nil => intro used; simp [runAttempts]
  | cons a t ih =>
    intro used
    rcases hr : attemptRun span a with _ | e | off
    · exact absurd hr (h a (List.mem_cons_self a t))
    · simp [runAttempts, hr]
    · by_cases hoff : span = off
      · have hred : runAttempts span (a :: t) used = (used + 1, ChunkOut.ok) := by
          simp only [runAttempts, hr]
          rw [if_pos hoff]
        rw [hred]; simp
      · have hred : runAttempts span (a :: t) used = runAttempts span t (used + 1) := by
          simp only [runAttempts, hr]
          rw [if_neg hoff]
        rw [hred]
        exact ih (fun b hb => h b (List.mem_cons_of_mem a hb)) (used + 1)

theorem runAttempts_spec (span : Nat) (l : List AttemptEnv) :
    ∀ used,
      (runAttempts span l used).1 ≤ used + l.length ∧
      ((runAttempts span l used).2 = ChunkOut.ok ↔
        ∃ i, i < l.length ∧ attemptRun span (l.getD i dfltAttempt) = AttemptRes.done span ∧
          ∀ j, j < i → shortAttempt span (l.getD j dfltAttempt) = true) ∧
      ((∀ i, i < l.length → shortAttempt span (l.getD i dfltAttempt) = true) →
        runAttempts span l used = (used + l.length, ChunkOut.fail chunkFailedErr)) := by
  induction l with
  | nil =>
    intro used
    refine ⟨by simp [runAttempts], ?_, ?_⟩
    · simp [runAttempts]
    · intro _; simp [runAttempts]
  | cons a t ih =>
    intro used
    obtain ⟨ih1, ih2, ih3⟩ := ih (used + 1)
    rcases hr : attemptRun span a with _ | e | off
    · refine ⟨?_, ?_, ?_⟩ <;> simp only [runAttempts, hr]
      · simp only [List.length_cons]; omega
      · constructor
        · intro h; cases h
        · rintro ⟨i, hi, hdone, hprev⟩
          rcases i with _ | i
          · rw [List.getD_cons_zero, hr] at hdone; cases hdone
          · have h0 := hprev 0 (by omega)
            rw [List.getD_cons_zero] at h0
            simp [shortAttempt, hr] at h0
      · intro hall
        have h0 := hall 0 (by simp)
        rw [List.getD_cons_zero] at h0
        simp [shortAttempt, hr] at h0
    · refine ⟨?_, ?_, ?_⟩ <;> simp only [runAttempts, hr]
      · simp only [List.length_cons]; omega
      · constructor
        · intro h; cases h
        · rintro ⟨i, hi, hdone, hprev⟩
          rcases i with _ | i
          · rw [List.getD_cons_zero, hr] at hdone; cases hdone
          · have h0 := hprev 0 (by omega)
            rw [List.getD_cons_zero] at h0
            simp [shortAttempt, hr] at h0
      · intro hall
        have h0 := hall 0 (by simp)
        rw [List.getD_cons_zero] at h0
        simp [shortAttempt, hr] at h0
    · by_cases hoff : span = off
      · have hred : runAttempts span (a :: t) used = (used + 1, ChunkOut.ok) := by
          simp only [runAttempts, hr]
          rw [if_pos hoff]
        refine ⟨?_, ?_, ?_⟩ <;> rw [hred]
        · simp only [List.length_cons]; omega
        · constructor
          · intro _
            refine ⟨0, by simp, ?_, fun j hj => absurd hj (by omega)⟩
            rw [List.getD_cons_zero, hr, hoff]
          · intro _; rfl
        · intro hall
          have h0 := hall 0 (by simp)
          rw [List.getD_cons_zero] at h0
          simp only [shortAttempt, hr, bne_iff_ne] at h0
          exact absurd hoff.symm h0
      · have hred : runAttempts span (a :: t) used = runAttempts span t (used + 1) := by
          simp only [runAttempts, hr]
          rw [if_neg hoff]
        refine ⟨?_, ?_, ?_⟩ <;> rw [hred]
        · simp only [List.length_cons]; omega
        · rw [ih2]
          constructor
          · rintro ⟨i, hi, hdone, hprev⟩
            refine ⟨i + 1, by simp only [List.length_cons]; omega,
              by rwa [List.getD_cons_succ], ?_⟩
            intro j hj
            rcases j with _ | j
            · rw [List.getD_cons_zero]
              simp only [shortAttempt, hr]
              exact bne_iff_ne.mpr (fun he => hoff he.symm)
            · rw [List.getD_cons_succ]
              exact hprev j (by omega)
          · rintro ⟨i, hi, hdone, hprev⟩
            rcases i with _ | i
            · rw [List.getD_cons_zero, hr] at hdone
              injection hdone with he
              exact absurd he.symm hoff
            · refine ⟨i, by simp only [List.length_cons] at hi; omega,
                by rwa [List.getD_cons_succ] at hdone, ?_⟩
              intro j hj
              have := hprev (j + 1) (by omega)
              rwa [List.getD_cons_succ] at this
        · intro hall
          have ht2 : ∀ i, i < t.length → shortAttempt span (t.getD i dfltAttempt) = true := by
            intro i hi
            have := hall (i + 1) (by simp only [List.length_cons]; omega)
            rwa [List.getD_cons_succ] at this
          rw [ih3 ht2]
          have he : used + 1 + t.length = used + (a :: t).length := by
            simp only [List.length_cons]; omega
          rw [he]

theorem mergeOut_ok (r : RunRes) : mergeOut ChunkOut.ok r = r := by
  cases r <;> rfl

theorem mergeOut_fail_ne_ok (e : WebError) (r : RunRes) :
    mergeOut (ChunkOut.fail e) r ≠ RunRes.ok := by
  cases r <;> simp [mergeOut]

theorem mergeOut_panic_ne_ok (r : RunRes) : mergeOut ChunkOut.panic r ≠ RunRes.ok := by
  cases r <;> simp [mergeOut]

theorem runChunksGo_misc (cenv : Nat → Nat → AttemptEnv) (started : Nat → Bool)
    (runAll : Bool) (cs : List (Nat × Nat)) :
    ∀ i, (∀ p, Ev.write p ∉ (runChunksGo cenv started runAll i cs).2) ∧
      Ev.renamed ∉ (runChunksGo cenv started runAll i cs).2 ∧
      Ev.bodyTransfer ∉ (runChunksGo cenv started runAll i cs).2 ∧
      (∀ b, Ev.validate b ∉ (runChunksGo cenv started runAll i cs).2) := by
  induction cs with
  | nil => intro i; simp [runChunksGo]
  | cons hd tl ih =>
    rcases hd with ⟨s, e⟩
    intro i
    obtain ⟨ih1, ih2, ih3, ih4⟩ := ih (i + 1)
    by_cases hskip : started i = false ∧ runAll = false
    · simp only [runChunksGo, if_pos hskip]
      exact ⟨ih1, ih2, ih3, ih4⟩
    · rcases hout : (downloadChunk s e (cenv i)).2 with _ | er
      · simp only [runChunksGo, if_neg hskip, hout]
        refine ⟨?_, ?_, ?_, ?_⟩
        · intro p
          simp only [List.mem_cons, not_or]
          exact ⟨by simp, ih1 p⟩
        · simp only [List.mem_cons, not_or]
          exact ⟨by simp, ih2⟩
        · simp only [List.mem_cons, not_or]
          exact ⟨by simp, ih3⟩
        · intro b
          simp only [List.mem_cons, not_or]
          exact ⟨by simp, ih4 b⟩
      · simp only [runChunksGo, if_neg hskip, hout]
        refine ⟨?_, ?_, ?_, ?_⟩
        · intro p
          simp only [List.mem_cons, not_or]
          exact ⟨by simp, by simp, ih1 p⟩
        · simp only [List.mem_cons, not_or]
          exact ⟨by simp, by simp, ih2⟩
        · simp only [List.mem_cons, not_or]
          exact ⟨by simp, by simp, ih3⟩
        · intro b
          simp only [List.mem_cons, not_or]
          exact ⟨by simp, by simp, ih4 b⟩
      · simp only [runChunksGo, if_neg hskip, hout]
        refine ⟨?_, ?_, ?_, ?_⟩
        · intro p
          simp only [List.mem_cons, not_or]
          exact ⟨by simp, by simp, ih1 p⟩
        · simp only [List.mem_cons, not_or]
          exact ⟨by simp, by simp, ih2⟩
        · simp only [List.mem_cons, not_or]
          exact ⟨by simp, by simp, ih3⟩
        · intro b
          simp only [List.mem_cons, not_or]
          exact ⟨by simp, by simp, ih4 b⟩

theorem runChunks_misc (cenv : Nat → Nat → AttemptEnv) (started : Nat → Bool)
    (cs : List (Nat × Nat)) :
    (∀ p, Ev.write p ∉ (runChunks cenv started cs).2) ∧
      Ev.renamed ∉ (runChunks cenv started cs).2 ∧
      Ev.bodyTransfer ∉ (runChunks cenv started cs).2 ∧
      (∀ b, Ev.validate b ∉ (runChunks cenv started cs).2) :=
  runChunksGo_misc cenv started (!(anyStartedBad cenv started 0 cs)) cs 0

theorem runChunksGo_ok_done (cenv : Nat → Nat → AttemptEnv) (started : Nat → Bool)
    (runAll : Bool) (cs : List (Nat × Nat)) :
    ∀ i, (runChunksGo cenv started runAll i cs).1 = RunRes.ok →
      ∀ j b, Ev.chunkDone j b ∈ (runChunksGo cenv started runAll i cs).2 → b = true := by
  induction cs with
  | nil => intro i _ j b hm; simp [runChunksGo] at hm
  | cons hd tl ih =>
    rcases hd with ⟨s, e⟩
    intro i hok j b hm
    by_cases hskip : started i = false ∧ runAll = false
    · simp only [runChunksGo, if_pos hskip] at hok hm
      exact ih (i + 1) hok j b hm
    · rcases hout : (downloadChunk s e (cenv i)).2 with _ | er
      · simp only [runChunksGo, if_neg hskip, hout] at hok
        exact absurd hok (mergeOut_panic_ne_ok _)
      · simp only [runChunksGo, if_neg hskip, hout] at hok
        exact absurd hok (mergeOut_fail_ne_ok _ _)
      · simp only [runChunksGo, if_neg hskip, hout] at hok hm
        rw [mergeOut_ok] at hok
        simp at hm
        rcases hm with hm | hm
        · exact hm.2
        · exact ih (i + 1) hok j b hm

theorem runChunks_ok_done (cenv : Nat → Nat → AttemptEnv) (started : Nat → Bool)
    (cs : List (Nat × Nat)) :
    (runChunks cenv started cs).1 = RunRes.ok →
      ∀ j b, Ev.chunkDone j b ∈ (runChunks cenv started cs).2 → b = true :=
  runChunksGo_ok_done cenv started (!(anyStartedBad cenv started 0 cs)) cs 0

theorem runChunks_fail_ne_ok (cenv : Nat → Nat → AttemptEnv) (started : Nat → Bool)
    (cs : List (Nat × Nat)) (i : Nat)
    (h : Ev.chunkDone i false ∈ (runChunks cenv started cs).2) :
    (runChunks cenv started cs).1 ≠ RunRes.ok := by
  intro hok
  have := runChunks_ok_done cenv started cs hok i false h
  exact Bool.noConfusion this

theorem string_ne_empty_of_mem {c : Char} {s : String} (h : c ∈ s.toList) : s ≠ "" := by
  intro he
  subst he
  simp at h

theorem string_toList_append (s t : String) : (s ++ t).toList = s.toList ++ t.toList := rfl

theorem charsOk_append {s t : String} (hs : ∀ c ∈ s.toList, forbiddenChar c = false)
    (ht : ∀ c ∈ t.toList, forbiddenChar c = false) :
    ∀ c ∈ (s ++ t).toList, forbiddenChar c = false := by
  intro c hc
  rw [string_toList_append] at hc
  rcases List.mem_append.mp hc with h | h
  · exact hs c h
  · exact ht c h

theorem charsOk_clean (decode : String → Option String) (raw : String) :
    ∀ c ∈ (cleanFilename decode raw).toList, forbiddenChar c = false := by
  intro c hc
  unfold cleanFilename at hc
  have : c ∈ (((decode raw).getD "").toList.map (fun c => if forbiddenChar c then '_' else c)) :=
    hc
  rcases List.mem_map.mp this with ⟨d, _, rfl⟩
  by_cases hf : forbiddenChar d = true
  · rw [if_pos hf]; decide
  · rw [if_neg hf]
    exact Bool.eq_false_iff.mpr hf

theorem charsOk_default {u : UrlModel}
    (h : ∀ hst, u.host = some hst → ∀ c ∈ hst.toList, forbiddenChar c = false) :
    ∀ c ∈ (generateDefaultName u).toList, forbiddenChar c = false := by
  unfold generateDefaultName
  rcases hu : u.host with _ | hst
  · simp only [Option.getD]
    exact charsOk_append (by decide) (by decide)
  · simp only [Option.getD]
    exact charsOk_append (h hst hu) (by decide)

theorem dot_mem_default (u : UrlModel) : '.' ∈ (generateDefaultName u).toList := by
  unfold generateDefaultName
  rw [string_toList_append]
  exact List.mem_append.mpr (Or.inr (by decide))

theorem goodName_addExt {name : String} (h : ∀ c ∈ name.toList, forbiddenChar c = false) :
    goodName (addDefaultExtension name) := by
  unfold addDefaultExtension
  by_cases hc : name.toList.contains '.' = true
  · rw [if_pos hc]
    have hdot : '.' ∈ name.toList := List.elem_iff.mp hc
    exact ⟨string_ne_empty_of_mem hdot, hdot, h⟩
  · rw [if_neg hc]
    have hdot : '.' ∈ (name ++ ".bin").toList := by
      rw [string_toList_append]
      exact List.mem_append.mpr (Or.inr (by decide))
    exact ⟨string_ne_empty_of_mem hdot, hdot, charsOk_append h (by decide)⟩

/-- C2: for every `total_size ≥ 1` and `threads ≥ 1` (and any host parallelism
`cpu ≥ 1`), `balanced_chunks` returns ranges that are contiguous, ascending and
non-overlapping, whose first range starts at 0, whose last range ends at
`total_size - 1`, whose inclusive lengths `end - start + 1` sum to exactly
`total_size`, and whose count never exceeds `min threads total_size`. -/
theorem c2_balanced_chunks (total threads cpu : Nat)
    (ht : 1 ≤ total) (hth : 1 ≤ threads) (hc : 1 ≤ cpu) :
    (balancedChunks cpu total threads).head?.map Prod.fst = some 0 ∧
    contiguousFrom 0 (balancedChunks cpu total threads) = true ∧
    List.Pairwise (fun x y : Nat × Nat => x.2 < y.1) (balancedChunks cpu total threads) ∧
    (∀ p ∈ balancedChunks cpu total threads, p.1 ≤ p.2) ∧
    lastEnd (balancedChunks cpu total threads) = some (total - 1) ∧
    sumLens (balancedChunks cpu total threads) = total ∧
    (balancedChunks cpu total threads).length ≤ min threads total := by
  obtain ⟨h1, h2, h3, h4, h5⟩ := balancedChunks_spec cpu total threads hc ht hth
  refine ⟨?_, h1, contiguous_pairwise_ranges _ 0 h1, ?_, h3, h2, h4⟩
  · rcases hbc : balancedChunks cpu total threads with _ | ⟨⟨a, b⟩, t⟩
    · exact absurd hbc h5
    · rw [hbc] at h1
      simp only [contiguousFrom, Bool.and_eq_true, beq_iff_eq, decide_eq_true_eq] at h1
      simp [h1.1.1]
  · intro p hp
    exact (contiguous_starts _ 0 h1 p hp).2

theorem c2_balanced_chunks_witness :
    contiguousFrom 0 (balancedChunks 8 10 3) = true ∧
    sumLens (balancedChunks 8 10 3) = 10 ∧
    (balancedChunks 8 10 3).length ≤ min 3 10 :=
  have h := c2_balanced_chunks 10 3 8 (by decide) (by decide) (by decide)
  ⟨h.2.1, h.2.2.2.2.2.1, h.2.2.2.2.2.2⟩

/-- C10: for every `threads ≥ 1` (and any host parallelism `cpu ≥ 1`),
`balanced_chunks` applied to `total_size = 0` returns the single inclusive
range `(0, 0)` — a plan whose lengths sum to 1 byte, not an empty plan, so the
sum-of-lengths invariant does not extend to `total_size = 0`. -/
theorem c10_zero_total (threads cpu : Nat) (hth : 1 ≤ threads) (hc : 1 ≤ cpu) :
    balancedChunks cpu 0 threads = [(0, 0)] ∧
    sumLens (balancedChunks cpu 0 threads) = 1 := by
  have hmx : max (0 / max MIN_CHUNK_SIZE 1) 1 = 1 := by decide
  have hcl : rustClamp threads 1 1 = 1 := by
    unfold rustClamp; split_ifs <;> omega
  have hmin : min 1 cpu = 1 := Nat.min_eq_left hc
  have hres : balancedChunks cpu 0 threads = [(0, 0)] := by
    unfold balancedChunks
    rw [hmx, hcl, hmin]
    decide
  exact ⟨hres, by rw [hres]; decide⟩

theorem c10_zero_total_witness :
    balancedChunks 1 0 1 = [(0, 0)] :=
  (c10_zero_total 1 1 (le_refl 1) (le_refl 1)).1

/-- C5: with force unset, `optimal_thread_count` computes
`clamp(requested, 1, max(1, min(cpu, total / (10 * 1024 * 1024))))`; for every
`requested ≥ 1` the result lies in `[1, requested]`, and for fixed `requested`
it is non-decreasing as `total` grows. -/
theorem c5_select_threads (cpu requested total total2 : Nat)
    (hreq : 1 ≤ requested) (hmono : total ≤ total2) :
    optimalThreadCount cpu requested total
      = rustClamp requested 1 (max 1 (min cpu (total / (10 * 1024 * 1024)))) ∧
    1 ≤ optimalThreadCount cpu requested total ∧
    optimalThreadCount cpu requested total ≤ requested ∧
    optimalThreadCount cpu requested total ≤ optimalThreadCount cpu requested total2 := by
  have hdef : ∀ t : Nat, optimalThreadCount cpu requested t
      = rustClamp requested 1 (max (min cpu (t / (1024 * 1024 * 10))) 1) := fun _ => rfl
  refine ⟨?_, ?_, ?_, ?_⟩
  · rw [hdef]
    norm_num [Nat.max_comm]
  · rw [hdef]
    exact rustClamp_pos _ _ (le_max_right _ _)
  · rw [hdef]
    exact rustClamp_le_self _ _ hreq
  · rw [hdef, hdef]
    apply rustClamp_mono_hi
    exact max_le_max (min_le_min (le_refl cpu) (Nat.div_le_div_right hmono)) (le_refl 1)

theorem c5_select_threads_witness :
    1 ≤ optimalThreadCount 8 4 0 ∧ optimalThreadCount 8 4 0 ≤ 4 ∧
    optimalThreadCount 8 4 0 ≤ optimalThreadCount 8 4 104857600 :=
  have h := c5_select_threads 8 4 0 104857600 (by decide) (by decide)
  ⟨h.2.1, h.2.2.1, h.2.2.2⟩

/-- C7 counterexample: the claim fails on the code for `http://[::1]/` —
under the url crate's documented parse of that input (see `parseV6`),
`extract_filename` takes the host-derived default-name path and returns
`"[::1].bin"`, which contains the forbidden character `:` unreplaced. -/
theorem c7_counterexample :
    extractFilename parseV6 some "http://[::1]/" = "[::1].bin" ∧
    ':' ∈ (extractFilename parseV6 some "http://[::1]/").toList ∧
    forbiddenChar ':' = true := by
  decide

theorem addExt_total (name : String) :
    addDefaultExtension name ≠ "" ∧ '.' ∈ (addDefaultExtension name).toList := by
  unfold addDefaultExtension
  by_cases hc : name.toList.contains '.' = true
  · rw [if_pos hc]
    have hdot : '.' ∈ name.toList := List.elem_iff.mp hc
    exact ⟨string_ne_empty_of_mem hdot, hdot⟩
  · rw [if_neg hc]
    have hdot : '.' ∈ (name ++ ".bin").toList := by
      rw [string_toList_append]
      exact List.mem_append.mpr (Or.inr (by decide))
    exact ⟨string_ne_empty_of_mem hdot, hdot⟩

/-- C7 (amended): `extract_filename` is total and deterministic — for every
input string, whatever the url-crate parser and the percent-decoder return,
the result is non-empty and carries a dot extension, and it never panics;
a name derived from a path segment (the case of any URL with a non-empty,
non-root path having a non-empty segment) additionally has every control
character and every one of `/ \ : *` replaced by `_`, as does the fixed
fallback for unparsable inputs; but the host-derived default name used for
empty or root paths copies `host_str()` verbatim before `".bin"`, so it is
not guaranteed free of those characters (an IPv6 host yields e.g.
`"[::1].bin"`). -/
theorem c7_total_filename (parse : String → Option UrlModel)
    (decode : String → Option String) (url : String) :
    extractFilename parse decode url ≠ "" ∧
    '.' ∈ (extractFilename parse decode url).toList ∧
    (parse url = none → goodName (extractFilename parse decode url)) ∧
    (∀ u seg, parse url = some u → ¬(u.path = "" ∨ u.path = "/") →
      (splitSeg '/' u.path.toList).reverse.find? (fun s => s != []) = some seg →
      goodName (extractFilename parse decode url)) := by
  rcases hp : parse url with _ | u
  · have hred : extractFilename parse decode url = "invalid_url.bin" := by
      simp only [extractFilename, hp]
    rw [hred]
    refine ⟨by decide, by decide, fun _ => ⟨by decide, by decide, by decide⟩, ?_⟩
    intro u seg hpu hnp hf
    exact Option.noConfusion hpu
  · by_cases hpath : u.path = "" ∨ u.path = "/"
    · have hred : extractFilename parse decode url = generateDefaultName u := by
        simp only [extractFilename, hp]
        rw [if_pos hpath]
      rw [hred]
      refine ⟨string_ne_empty_of_mem (dot_mem_default u), dot_mem_default u, ?_, ?_⟩
      · intro h
        exact Option.noConfusion h
      · intro u2 seg hpu hnp hf
        obtain rfl : u = u2 := Option.some.inj hpu
        exact absurd hpath hnp
    · rcases hseg : (splitSeg '/' u.path.toList).reverse.find? (fun s => s != []) with _ | seg
      · have hred : extractFilename parse decode url
            = addDefaultExtension (generateDefaultName u) := by
          simp only [extractFilename, hp]
          rw [if_neg hpath, hseg]
        rw [hred]
        obtain ⟨hne, hdot⟩ := addExt_total (generateDefaultName u)
        refine ⟨hne, hdot, ?_, ?_⟩
        · intro h
          exact Option.noConfusion h
        · intro u2 seg2 hpu hnp hf
          obtain rfl : u = u2 := Option.some.inj hpu
          rw [hseg] at hf
          exact Option.noConfusion hf
      · have hred : extractFilename parse decode url
            = addDefaultExtension (cleanFilename decode (String.mk seg)) := by
          simp only [extractFilename, hp]
          rw [if_neg hpath, hseg]
        rw [hred]
        obtain ⟨hne, hdot⟩ := addExt_total (cleanFilename decode (String.mk seg))
        refine ⟨hne, hdot, ?_, fun _ _ _ _ _ => ?_⟩
        · intro h
          exact Option.noConfusion h
        · exact goodName_addExt (charsOk_clean decode (String.mk seg))

theorem c7_total_filename_witness :
    extractFilename parseFixed some "http://h/a/b.txt" ≠ "" ∧
    goodName (extractFilename parseFixed some "http://h/a/b.txt") :=
  ⟨(c7_total_filename parseFixed some "http://h/a/b.txt").1,
   (c7_total_filename parseFixed some "http://h/a/b.txt").2.2.2
     ⟨"/a/b.txt", some "h"⟩ "b.txt".toList rfl (by decide) (by decide)⟩

/-- C3: the code violates this claim.  `BufferPool::put` on a full queue
returns `Err(BufferPoolFull)` instead of discarding silently, and
`download_chunk` propagates that error with `?`: with capacity 1 and the
queue already holding one idle buffer (a sibling worker released first), the
chunk `(0, 0)` fails with `BufferPoolFull` even though its single byte was
already copied in full. -/
theorem c3_pool_full_bug :
    BufferPool.put ⟨1, 8192⟩ ⟨1⟩ = Except.error WebError.BufferPoolFull ∧
    downloadChunk 0 0 envPoolFull = (1, ChunkOut.fail WebError.BufferPoolFull) :=
  ⟨rfl, by decide⟩

/-- C4 counterexample: a connection drop surfacing as a reader error on the
first attempt is not retried — `download_chunk` returns after one attempt with
the `Io` error, not after exhausting the 3-attempt budget with the terminal
chunk error, contradicting the claim that every failed attempt is retried
until the budget is exhausted. -/
theorem c4_counterexample :
    downloadChunk 0 9 envReadError = (1, ChunkOut.fail WebError.Io) ∧
    (downloadChunk 0 9 envReadError).1 ≠ MAX_RETRIES ∧
    (downloadChunk 0 9 envReadError).2 ≠ ChunkOut.fail chunkFailedErr := by
  decide

/-- C4 (amended): each chunk is attempted at most 3 times and an attempt
succeeds exactly when the bytes copied equal `end - start + 1`; but only
attempts that reach the completion check with a wrong byte count (truncated
responses) are retried — send errors, reader errors and pool-release errors
return immediately — and exhausting the budget on three truncated attempts
yields the fixed terminal error `chunkFailedErr` (which does not name the
chunk).  In particular a chunk whose first two responses are truncated but
whose third delivers the full span succeeds. -/
theorem c4_retry_semantics (start endB : Nat) (env : Nat → AttemptEnv) :
    (downloadChunk start endB env).1 ≤ MAX_RETRIES ∧
    ((downloadChunk start endB env).2 = ChunkOut.ok ↔
      ∃ i, i < MAX_RETRIES ∧
        attemptRun (endB - start + 1) (env i) = AttemptRes.done (endB - start + 1) ∧
        ∀ j, j < i → shortAttempt (endB - start + 1) (env j) = true) ∧
    ((∀ i, i < MAX_RETRIES → shortAttempt (endB - start + 1) (env i) = true) →
      downloadChunk start endB env = (MAX_RETRIES, ChunkOut.fail chunkFailedErr)) := by
  obtain ⟨h1, h2, h3⟩ := runAttempts_spec (endB - start + 1) [env 0, env 1, env 2] 0
  have hdc : downloadChunk start endB env
      = runAttempts (endB - start + 1) [env 0, env 1, env 2] 0 := rfl
  have hlen : ([env 0, env 1, env 2] : List AttemptEnv).length = 3 := rfl
  have hget : ∀ i, i < 3 → ([env 0, env 1, env 2].getD i dfltAttempt) = env i := by
    intro i hi
    interval_cases i <;> rfl
  have hMR : MAX_RETRIES = 3 := rfl
  refine ⟨?_, ?_, ?_⟩
  · rw [hdc, hMR]
    simpa using h1
  · rw [hdc, h2]
    constructor
    · rintro ⟨i, hi, hdone, hprev⟩
      rw [hlen] at hi
      refine ⟨i, by rw [hMR]; exact hi, by rwa [hget i hi] at hdone, ?_⟩
      intro j hj
      have := hprev j hj
      rwa [hget j (by omega)] at this
    · rintro ⟨i, hi, hdone, hprev⟩
      rw [hMR] at hi
      refine ⟨i, by rw [hlen]; exact hi, by rwa [hget i hi], ?_⟩
      intro j hj
      have := hprev j hj
      rwa [hget j (by omega)]
  · intro hall
    have hspec := h3 (by
      intro i hi
      rw [hlen] at hi
      rw [hget i hi]
      exact hall i (by rw [hMR]; exact hi))
    rw [hdc, hspec]
    rfl

theorem c4_retry_semantics_witness :
    (downloadChunk 0 9 envThirdTimeLucky).2 = ChunkOut.ok :=
  ((c4_retry_semantics 0 9 envThirdTimeLucky).2.1).mpr
    ⟨2, by decide, by decide, by decide⟩

/-- C8: the slices handed to the workers are exactly the plan's
`(start, length)` regions in plan order and are pairwise disjoint, and under
the precondition that each ranged response delivers at most `end - start + 1`
bytes in total, `download_chunk` never reaches the out-of-bounds branch of the
slice copy (no panic). -/
theorem c8_exclusive_slices (total threads cpu : Nat)
    (ht : 1 ≤ total) (hth : 1 ≤ threads) (hc : 1 ≤ cpu) :
    splitSlices 0 total (balancedChunks cpu total threads)
        = some ((balancedChunks cpu total threads).map (fun p => (p.1, p.2 - p.1 + 1))) ∧
    List.Pairwise (fun x y : Nat × Nat => x.1 + x.2 ≤ y.1)
      ((balancedChunks cpu total threads).map (fun p => (p.1, p.2 - p.1 + 1))) ∧
    ∀ s e aenv,
      (∀ i, i < MAX_RETRIES → readsTotal ((aenv i).reads) ≤ e - s + 1) →
      (downloadChunk s e aenv).2 ≠ ChunkOut.panic := by
  obtain ⟨h1, h2, h3, h4, h5⟩ := balancedChunks_spec cpu total threads hc ht hth
  refine ⟨?_, contiguous_pairwise_slices _ 0 h1, ?_⟩
  · have := splitSlices_contiguous (balancedChunks cpu total threads) 0 h1
    rwa [h2] at this
  · intro s e aenv hre
    have hdc : downloadChunk s e aenv
        = runAttempts (e - s + 1) [aenv 0, aenv 1, aenv 2] 0 := rfl
    rw [hdc]
    apply runAttempts_no_panic
    intro a ha
    simp only [List.mem_cons, List.not_mem_nil, or_false] at ha
    rcases ha with rfl | rfl | rfl
    · exact attemptRun_no_panic _ _ (hre 0 (by decide))
    · exact attemptRun_no_panic _ _ (hre 1 (by decide))
    · exact attemptRun_no_panic _ _ (hre 2 (by decide))

theorem c8_exclusive_slices_witness :
    splitSlices 0 3 (balancedChunks 2 3 2)
      = some ((balancedChunks 2 3 2).map (fun p => (p.1, p.2 - p.1 + 1))) :=
  (c8_exclusive_slices 3 2 2 (by decide) (by decide) (by decide)).1

theorem traceParts (env : Env) (chunks : List (Nat × Nat)) (rr : RunRes)
    (ctr tail tr : List Ev)
    (hrc : runChunks env.chunkEnv env.started chunks = (rr, ctr))
    (htr : tr = [Ev.write (tempTag env), Ev.write (tempTag env)] ++ ctr ++ tail)
    (htW : ∀ p, Ev.write p ∉ tail) (htR : Ev.renamed ∉ tail)
    (htD : ∀ j b, Ev.chunkDone j b ∉ tail) :
    (∀ p, Ev.write p ∈ tr → p = tempTag env) ∧
    Ev.renamed ∉ tr ∧
    ∀ i, Ev.chunkDone i false ∈ tr → rr ≠ RunRes.ok := by
  obtain ⟨hW, hRN, hBT, hVD⟩ := runChunks_misc env.chunkEnv env.started chunks
  have hctr2 : (runChunks env.chunkEnv env.started chunks).2 = ctr := by rw [hrc]
  rw [hctr2] at hW hRN hBT hVD
  subst htr
  refine ⟨?_, ?_, ?_⟩
  · intro p hp
    rcases List.mem_append.mp hp with hp1 | hp2
    · rcases List.mem_append.mp hp1 with hp3 | hp4
      · simpa using hp3
      · exact absurd hp4 (hW p)
    · exact absurd hp2 (htW p)
  · intro hren
    rcases List.mem_append.mp hren with h1 | h2
    · rcases List.mem_append.mp h1 with h3 | h4
      · simp at h3
      · exact hRN h4
    · exact htR h2
  · intro i hf
    have hf2 : Ev.chunkDone i false ∈ ctr := by
      rcases List.mem_append.mp hf with h1 | h2
      · rcases List.mem_append.mp h1 with h3 | h4
        · simp at h3
        · exact h4
      · exact absurd h2 (htD i false)
    have hne := runChunks_fail_ne_ok env.chunkEnv env.started chunks i
      (by rw [hctr2]; exact hf2)
    intro hrrok
    exact hne (by rw [hrc]; exact hrrok)

theorem parallelTail_spec (env : Env) (T N : Nat) (chunks : List (Nat × Nat)) :
    (∀ p, Ev.write p ∈ (parallelTail env T N chunks).2 → p = tempTag env) ∧
    (∀ e, (parallelTail env T N chunks).1 = DlOut.err e →
      Ev.renamed ∉ (parallelTail env T N chunks).2) ∧
    (Ev.renamed ∈ (parallelTail env T N chunks).2 →
      ∃ pre, (parallelTail env T N chunks).2 = pre ++ [Ev.renamed] ∧ Ev.renamed ∉ pre ∧
        Ev.validate true ∈ pre ∧ ∀ j b, Ev.chunkDone j b ∈ pre → b = true) ∧
    (∀ i, Ev.chunkDone i false ∈ (parallelTail env T N chunks).2 →
      (∀ n, (parallelTail env T N chunks).1 ≠ DlOut.ok n) ∧
      Ev.renamed ∉ (parallelTail env T N chunks).2) := by
  rcases hss : splitSlices 0 T chunks with _ | sl
  · have hred : parallelTail env T N chunks
        = (.panicked, [Ev.write (tempTag env), Ev.write (tempTag env)]) := by
      simp [parallelTail, hss]
    rw [hred]
    simp
  · rcases hrc : runChunks env.chunkEnv env.started chunks with ⟨rr, ctr⟩
    cases rr with
    | panicked =>
      have hred : parallelTail env T N chunks
          = (.panicked, [Ev.write (tempTag env), Ev.write (tempTag env)] ++ ctr) := by
        simp [parallelTail, hss, hrc]
      obtain ⟨tp1, tp2, tp3⟩ := traceParts env chunks RunRes.panicked ctr []
        ([Ev.write (tempTag env), Ev.write (tempTag env)] ++ ctr) hrc
        (by simp) (by simp) (by simp) (by simp)
      rw [hred]
      refine ⟨tp1, fun e he => by simp at he, fun hren => absurd hren tp2, ?_⟩
      intro i hf
      exact ⟨fun n h => by simp at h, tp2⟩
    | err er =>
      have hred : parallelTail env T N chunks
          = (.err er, [Ev.write (tempTag env), Ev.write (tempTag env)] ++ ctr) := by
        simp [parallelTail, hss, hrc]
      obtain ⟨tp1, tp2, tp3⟩ := traceParts env chunks (RunRes.err er) ctr []
        ([Ev.write (tempTag env), Ev.write (tempTag env)] ++ ctr) hrc
        (by simp) (by simp) (by simp) (by simp)
      rw [hred]
      refine ⟨tp1, fun e _ => tp2, fun hren => absurd hren tp2, ?_⟩
      intro i hf
      exact ⟨fun n h => by simp at h, tp2⟩
    | ok =>
      obtain ⟨hW, hRN, hBT, hVD⟩ := runChunks_misc env.chunkEnv env.started chunks
      have hctr2 : (runChunks env.chunkEnv env.started chunks).2 = ctr := by rw [hrc]
      have hctr1 : (runChunks env.chunkEnv env.started chunks).1 = RunRes.ok := by rw [hrc]
      rw [hctr2] at hW hRN hBT hVD
      have hokdone : ∀ j b, Ev.chunkDone j b ∈ ctr → b = true := by
        intro j b hm
        exact runChunks_ok_done env.chunkEnv env.started chunks hctr1 j b
          (by rw [hctr2]; exact hm)
      have hnofail : ∀ i, Ev.chunkDone i false ∈ ctr → False := by
        intro i hm
        exact Bool.noConfusion (hokdone i false hm)
      by_cases hfl : env.flushOk = false
      · have hred : parallelTail env T N chunks
            = (.err .Io, [Ev.write (tempTag env), Ev.write (tempTag env)] ++ ctr) := by
          simp [parallelTail, hss, hrc, hfl]
        obtain ⟨tp1, tp2, tp3⟩ := traceParts env chunks RunRes.ok ctr []
          ([Ev.write (tempTag env), Ev.write (tempTag env)] ++ ctr) hrc
          (by simp) (by simp) (by simp) (by simp)
        rw [hred]
        exact ⟨tp1, fun e _ => tp2, fun hren => absurd hren tp2,
          fun i hf => ⟨fun n h => by simp at h, tp2⟩⟩
      · simp only [Bool.not_eq_false] at hfl
        by_cases hmk : env.metaOk = false
        · have hred : parallelTail env T N chunks
              = (.err .Io, [Ev.write (tempTag env), Ev.write (tempTag env)] ++ ctr) := by
            simp [parallelTail, hss, hrc, hfl, hmk]
          obtain ⟨tp1, tp2, tp3⟩ := traceParts env chunks RunRes.ok ctr []
            ([Ev.write (tempTag env), Ev.write (tempTag env)] ++ ctr) hrc
            (by simp) (by simp) (by simp) (by simp)
          rw [hred]
          exact ⟨tp1, fun e _ => tp2, fun hren => absurd hren tp2,
            fun i hf => ⟨fun n h => by simp at h, tp2⟩⟩
        · simp only [Bool.not_eq_false] at hmk
          by_cases hv : env.actualLen = T
          · by_cases hre : env.renameOk = false
            · have hred : parallelTail env T N chunks
                  = (.err .Io, [Ev.write (tempTag env), Ev.write (tempTag env)] ++ ctr
                      ++ [Ev.validate true]) := by
                simp [parallelTail, hss, hrc, hfl, hmk, hv, hre]
              obtain ⟨tp1, tp2, tp3⟩ := traceParts env chunks RunRes.ok ctr
                [Ev.validate true] _ hrc rfl (by simp) (by simp) (by simp)
              rw [hred]
              exact ⟨tp1, fun e _ => tp2, fun hren => absurd hren tp2,
                fun i hf => ⟨fun n h => by simp at h, tp2⟩⟩
            · simp only [Bool.not_eq_false] at hre
              have hred : parallelTail env T N chunks
                  = (.ok N, [Ev.write (tempTag env), Ev.write (tempTag env)] ++ ctr
                      ++ [Ev.validate true, Ev.renamed]) := by
                simp [parallelTail, hss, hrc, hfl, hmk, hv, hre]
              rw [hred]
              refine ⟨?_, ?_, ?_, ?_⟩
              · intro p hp
                rcases List.mem_append.mp hp with h1 | h2
                · rcases List.mem_append.mp h1 with h3 | h4
                  · simpa using h3
                  · exact absurd h4 (hW p)
                · simp at h2
              · intro e he
                simp at he
              · intro _
                refine ⟨[Ev.write (tempTag env), Ev.write (tempTag env)] ++ ctr
                  ++ [Ev.validate true], ?_, ?_, ?_, ?_⟩
                · simp
                · intro hren
                  rcases List.mem_append.mp hren with h1 | h2
                  · rcases List.mem_append.mp h1 with h3 | h4
                    · simp at h3
                    · exact hRN h4
                  · simp at h2
                · exact List.mem_append.mpr (Or.inr (by simp))
                · intro j b hjb
                  rcases List.mem_append.mp hjb with h1 | h2
                  · rcases List.mem_append.mp h1 with h3 | h4
                    · simp at h3
                    · exact hokdone j b h4
                  · simp at h2
              · intro i hf
                exfalso
                rcases List.mem_append.mp hf with h1 | h2
                · rcases List.mem_append.mp h1 with h3 | h4
                  · simp at h3
                  · exact hnofail i h4
                · simp at h2
          · have hred : parallelTail env T N chunks
                = (.err .ValidationFailed,
                    [Ev.write (tempTag env), Ev.write (tempTag env)] ++ ctr
                      ++ [Ev.validate false]) := by
              simp [parallelTail, hss, hrc, hfl, hmk, hv]
            obtain ⟨tp1, tp2, tp3⟩ := traceParts env chunks RunRes.ok ctr
              [Ev.validate false] _ hrc rfl (by simp) (by simp) (by simp)
            rw [hred]
            exact ⟨tp1, fun e _ => tp2, fun hren => absurd hren tp2,
              fun i hf => ⟨fun n h => by simp at h, tp2⟩⟩

theorem downloadFile_trace_spec (rt : Nat) (mu : Bool) (env : Env) :
    (∀ p, Ev.write p ∈ (downloadFile rt mu env).2 → p = tempTag env) ∧
    (∀ e, (downloadFile rt mu env).1 = DlOut.err e →
      Ev.renamed ∉ (downloadFile rt mu env).2) ∧
    (Ev.renamed ∈ (downloadFile rt mu env).2 →
      ∃ pre, (downloadFile rt mu env).2 = pre ++ [Ev.renamed] ∧ Ev.renamed ∉ pre ∧
        Ev.validate true ∈ pre ∧ ∀ j b, Ev.chunkDone j b ∈ pre → b = true) ∧
    (∀ i, Ev.chunkDone i false ∈ (downloadFile rt mu env).2 →
      (∀ n, (downloadFile rt mu env).1 ≠ DlOut.ok n) ∧
      Ev.renamed ∉ (downloadFile rt mu env).2) := by
  by_cases hcd : env.createDirOk = false
  · have hred : downloadFile rt mu env = (DlOut.err WebError.Io, []) := by
      simp [downloadFile, hcd]
    rw [hred]; simp
  · simp only [Bool.not_eq_false] at hcd
    rcases hh : env.headResp with _ | h
    · have hred : downloadFile rt mu env = (DlOut.err WebError.RequestError, []) := by
        simp [downloadFile, hcd, hh]
      rw [hred]; simp
    · rcases hcl : h.contentLength with _ | T
      · have hred : downloadFile rt mu env = (DlOut.err missingLength, []) := by
          simp [downloadFile, hcd, hh, hcl]
        rw [hred]; simp
      · by_cases ho : env.openOk = false
        · have hred : downloadFile rt mu env = (DlOut.err WebError.Io, []) := by
            simp [downloadFile, hcd, hh, hcl, ho]
          rw [hred]; simp
        · simp only [Bool.not_eq_false] at ho
          by_cases hsl : env.setLenOk = false
          · have hred : downloadFile rt mu env
                = (DlOut.err WebError.Io, [Ev.write (tempTag env)]) := by
              simp [downloadFile, hcd, hh, hcl, ho, hsl]
            rw [hred]; simp
          · simp only [Bool.not_eq_false] at hsl
            by_cases hmm2 : env.mmapOk = false
            · have hred : downloadFile rt mu env
                  = (DlOut.err WebError.Io,
                      [Ev.write (tempTag env), Ev.write (tempTag env)]) := by
                simp [downloadFile, hcd, hh, hcl, ho, hsl, hmm2]
              rw [hred]; simp
            · simp only [Bool.not_eq_false] at hmm2
              by_cases har : h.acceptRangesBytes = false
              · by_cases hsg : env.ssGetOk = false
                · have hred : downloadFile rt mu env
                      = (DlOut.err WebError.RequestError,
                          [Ev.write (tempTag env), Ev.write (tempTag env)]) := by
                    simp [downloadFile, hcd, hh, hcl, ho, hsl, hmm2, har, hsg]
                  rw [hred]; simp
                · simp only [Bool.not_eq_false] at hsg
                  by_cases hsc : env.ssCopyOk = false
                  · have hred : downloadFile rt mu env
                        = (DlOut.err WebError.Io,
                            [Ev.write (tempTag env), Ev.write (tempTag env),
                             Ev.bodyTransfer]) := by
                      simp [downloadFile, hcd, hh, hcl, ho, hsl, hmm2, har, hsg, hsc]
                    rw [hred]; simp
                  · simp only [Bool.not_eq_false] at hsc
                    by_cases hmk : env.metaOk = false
                    · have hred : downloadFile rt mu env
                          = (DlOut.err WebError.Io,
                              [Ev.write (tempTag env), Ev.write (tempTag env),
                               Ev.bodyTransfer, Ev.write (tempTag env)]) := by
                        simp [downloadFile, hcd, hh, hcl, ho, hsl, hmm2, har, hsg, hsc, hmk]
                      rw [hred]; simp
                    · simp only [Bool.not_eq_false] at hmk
                      by_cases hv : env.actualLen = T
                      · by_cases hre : env.renameOk = false
                        · have hred : downloadFile rt mu env
                              = (DlOut.err WebError.Io,
                                  [Ev.write (tempTag env), Ev.write (tempTag env),
                                   Ev.bodyTransfer, Ev.write (tempTag env),
                                   Ev.validate true]) := by
                            simp [downloadFile, hcd, hh, hcl, ho, hsl, hmm2, har, hsg,
                              hsc, hmk, hv, hre]
                          rw [hred]; simp
                        · simp only [Bool.not_eq_false] at hre
                          have hred : downloadFile rt mu env
                              = (DlOut.ok 1,
                                  [Ev.write (tempTag env), Ev.write (tempTag env),
                                   Ev.bodyTransfer, Ev.write (tempTag env),
                                   Ev.validate true, Ev.renamed]) := by
                            simp [downloadFile, hcd, hh, hcl, ho, hsl, hmm2, har, hsg,
                              hsc, hmk, hv, hre]
                          rw [hred]
                          refine ⟨?_, ?_, ?_, ?_⟩
                          · intro p hp
                            simpa using hp
                          · intro e he
                            simp at he
                          · intro _
                            refine ⟨[Ev.write (tempTag env), Ev.write (tempTag env),
                              Ev.bodyTransfer, Ev.write (tempTag env), Ev.validate true],
                              rfl, by simp, by simp, ?_⟩
                            intro j b hjb
                            simp at hjb
                          · intro i hi
                            simp at hi
                      · have hred : downloadFile rt mu env
                            = (DlOut.err WebError.ValidationFailed,
                                [Ev.write (tempTag env), Ev.write (tempTag env),
                                 Ev.bodyTransfer, Ev.write (tempTag env),
                                 Ev.validate false]) := by
                          simp [downloadFile, hcd, hh, hcl, ho, hsl, hmm2, har, hsg,
                            hsc, hmk, hv]
                        rw [hred]; simp
              · simp only [Bool.not_eq_false] at har
                have hred : downloadFile rt mu env = parallelTail env T
                    (if mu = true then rt else optimalThreadCount env.cpu rt T)
                    (balancedChunks env.cpu T
                      (if mu = true then rt else optimalThreadCount env.cpu rt T)) := by
                  simp [downloadFile, hcd, hh, hcl, ho, hsl, hmm2, har]
                rw [hred]
                exact parallelTail_spec env T _ _

/-- C1 counterexample: when the destination path's extension is already
`download` (e.g. `save_path = "out.download"`), `with_extension("download")`
at web.rs:384 returns the destination path itself, so the temp file IS the
destination file; in this run the server sends more bytes than announced, the
size validation fails, and `download_file` returns an error although the body
was already written under the destination name — falsifying the claim that an
erroring run never writes to the destination path. -/
theorem c1_counterexample :
    envTempCollision.tempEqDest = true ∧
    (downloadFile 1 false envTempCollision).1 = DlOut.err WebError.ValidationFailed ∧
    Ev.write PathTag.dest ∈ (downloadFile 1 false envTempCollision).2 := by
  decide

/-- C1 (amended): provided the destination path's extension is not already
`download` — so the temp path `original_path.with_extension("download")` is a
path distinct from the destination — an erroring `download_file` run has
never written to or renamed onto the destination: every write event targets
the temp path, and no rename occurred; moreover, whenever a rename occurs it
is the single, final event of the run, preceded by a successful independent
size validation and by the successful completion of every chunk that ran, so
callers never observe a partially written file under the destination name.
When the destination itself ends in `.download` the temp path coincides with
the destination and partial bytes appear directly under the destination name
(see the counterexample). -/
theorem c1_atomic_publish (rt : Nat) (mu : Bool) (env : Env)
    (hsep : env.tempEqDest = false) :
    (∀ p, Ev.write p ∈ (downloadFile rt mu env).2 → p = PathTag.temp) ∧
    (∀ e, (downloadFile rt mu env).1 = DlOut.err e →
      Ev.renamed ∉ (downloadFile rt mu env).2) ∧
    (Ev.renamed ∈ (downloadFile rt mu env).2 →
      ∃ pre, (downloadFile rt mu env).2 = pre ++ [Ev.renamed] ∧ Ev.renamed ∉ pre ∧
        Ev.validate true ∈ pre ∧ ∀ j b, Ev.chunkDone j b ∈ pre → b = true) := by
  have htag : tempTag env = PathTag.temp := by simp [tempTag, hsep]
  obtain ⟨h1, h2, h3, _⟩ := downloadFile_trace_spec rt mu env
  exact ⟨fun p hp => (h1 p hp).trans htag, h2, h3⟩

theorem c1_atomic_publish_witness :
    envSingleOk.tempEqDest = false ∧
    Ev.renamed ∈ (downloadFile 1 false envSingleOk).2 ∧
    (∃ pre, (downloadFile 1 false envSingleOk).2 = pre ++ [Ev.renamed] ∧
      Ev.renamed ∉ pre ∧ Ev.validate true ∈ pre ∧
      ∀ j b, Ev.chunkDone j b ∈ pre → b = true) :=
  ⟨rfl, by decide, (c1_atomic_publish 1 false envSingleOk rfl).2.2 (by decide)⟩

/-- C6: when the HEAD response carries no parseable Content-Length,
`download_file` aborts before any body transfer, any write and any chunk work
(the event trace is empty), reporting the distinguished `missingLength` error
value — `Server("Missing Content-Length")`, the code's representation of the
spec's `MissingLength` kind — which is distinct from every other error value
the operation produces; there is no fallback path for unknown-length
sources. -/
theorem c6_missing_length (rt : Nat) (mu : Bool) (env : Env) (h : HeadResp)
    (hcd : env.createDirOk = true) (hh : env.headResp = some h)
    (hl : h.contentLength = none) :
    (downloadFile rt mu env).1 = DlOut.err missingLength ∧
    (downloadFile rt mu env).2 = [] ∧
    missingLength ≠ WebError.RequestError ∧
    missingLength ≠ WebError.Io ∧
    missingLength ≠ WebError.ValidationFailed ∧
    missingLength ≠ WebError.BufferPoolFull ∧
    missingLength ≠ chunkFailedErr := by
  have hred : downloadFile rt mu env = (DlOut.err missingLength, []) := by
    simp [downloadFile, hcd, hh, hl]
  rw [hred]
  exact ⟨rfl, rfl, by decide, by decide, by decide, by decide, by decide⟩

theorem c6_missing_length_witness :
    (downloadFile 4 false envNoLength).1 = DlOut.err missingLength ∧
    (downloadFile 4 false envNoLength).2 = [] :=
  have h := c6_missing_length 4 false envNoLength ⟨true, none⟩ rfl rfl rfl
  ⟨h.1, h.2.1⟩

/-- C9 counterexample: with a two-chunk plan in which chunk 0 fails
terminally while the scheduler had not yet started chunk 1 — one of the
executions rayon's best-effort cancellation permits — `download_file` reports
the chunk error although chunk 1 was never started, so the operation does not
attempt every other planned chunk before reporting the failure. -/
theorem c9_counterexample :
    (downloadFile 2 true envChunk0Fails).1 = DlOut.err chunkFailedErr ∧
    (balancedChunks 2 2 2).length = 2 ∧
    Ev.chunkStart 0 ∈ (downloadFile 2 true envChunk0Fails).2 ∧
    Ev.chunkDone 0 false ∈ (downloadFile 2 true envChunk0Fails).2 ∧
    Ev.chunkStart 1 ∉ (downloadFile 2 true envChunk0Fails).2 := by
  decide

/-- C9 (amended): when a chunk fails terminally the operation cannot succeed —
`download_file` does not return a success result (whichever scheduling the
rayon runtime chose) and the temp file is never renamed onto the destination;
but the operation does not guarantee that every other planned chunk is
attempted before the failure is reported: `try_for_each` cancels best-effort
once a failure occurs, so whether a sibling chunk was started is
scheduler-dependent, and in some permitted executions a sibling is never
started (see the counterexample). -/
theorem c9_short_circuit (rt : Nat) (mu : Bool) (env : Env) (i : Nat)
    (hfail : Ev.chunkDone i false ∈ (downloadFile rt mu env).2) :
    (∀ n, (downloadFile rt mu env).1 ≠ DlOut.ok n) ∧
    Ev.renamed ∉ (downloadFile rt mu env).2 :=
  (downloadFile_trace_spec rt mu env).2.2.2 i hfail

theorem c9_short_circuit_witness :
    Ev.chunkDone 0 false ∈ (downloadFile 2 true envChunk0Fails).2 ∧
    ((∀ n, (downloadFile 2 true envChunk0Fails).1 ≠ DlOut.ok n) ∧
     Ev.renamed ∉ (downloadFile 2 true envChunk0Fails).2) :=
  ⟨by decide, c9_short_circuit 2 true envChunk0Fails 0 (by decide)⟩
